import Mathlib

/-!
Verification of the landmark-prediction learning pipeline of the
Image-registration-gui repository (`image_registration/CNN/CNN.py`).

The Python source is shallowly embedded: images become a structure carrying
their height, width and a rational-valued pixel function; the pandas
landmark dataframe becomes a list of rows, each holding a file-name key and
a cell function from column names to integer coordinate pairs; external
library primitives (skimage `resize`, scipy `ndimage.rotate` / `ndimage.zoom`,
the trained network's forward pass) are parameters of the embedding,
constrained only by the properties their documentation guarantees.
Fallible code paths (pandas `.values[0]` on an empty selection, numpy
`reshape` count mismatches) are modelled with `Option`.
-/

/-! ### Python numeric primitives -/

/-- Python `int()` applied to a float: truncation toward zero. -/
def pyTrunc (q : ℚ) : ℤ :=
  q.num.tdiv q.den

/-- The floor of a rational, computed by floor division of the reduced
numerator by the denominator. -/
def ratFloor (q : ℚ) : ℤ :=
  q.num.fdiv q.den

/-- Python `round()` to an integer: round half to even (banker's rounding). -/
def pyRound (q : ℚ) : ℤ :=
  let f := ratFloor q
  let r := q - (f : ℚ)
  if r < 1/2 then f
  else if 1/2 < r then f + 1
  else if f.emod 2 = 0 then f else f + 1

theorem ratFloor_eq_floor (q : ℚ) : ratFloor q = ⌊q⌋ := by
  rw [ratFloor, Rat.floor_def, Int.fdiv_eq_ediv _ (Int.ofNat_le.2 (Nat.zero_le _))]

theorem pyTrunc_intCast (n : ℤ) : pyTrunc (n : ℚ) = n := by
  simp [pyTrunc, Rat.num_intCast, Rat.den_intCast, Int.tdiv_one]

theorem pyRound_intCast (n : ℤ) : pyRound (n : ℚ) = n := by
  have hf : ratFloor (n : ℚ) = n := by rw [ratFloor_eq_floor, Int.floor_intCast]
  simp [pyRound, hf]

/-! ### C1: the train/validation split of `training_data_preprocessing`

`CNN.py` lines 284-291.  After `dropna`, the code draws the validation rows
with `df_landmarks_copy.sample(int(test_size * len(df_landmarks_copy)),
ignore_index=True).reset_index(drop=True)` and then forms the training rows
as `df_landmarks_copy.drop(df_landmarks_val.index).reset_index(drop=True)`.
Because `ignore_index=True` (and the extra `reset_index`) reset the sampled
frame's index to `0, 1, ..., nVal-1`, the subsequent `drop` removes the
*first `nVal` rows* of the cleaned frame, not the sampled rows.

The embedding works on the cleaned (fully-annotated) sample list `xs`; the
randomness of `pandas.sample` is a parameter `sel`: the list of distinct row
positions the sampler drew (each `< xs.length`, `sel.length = nVal`). -/

/-- Rows drawn by `pandas.DataFrame.sample`, identified by their positions
`sel` in the cleaned frame (`CNN.py` line 290). -/
def valSample {α : Type} (xs : List α) (sel : List ℕ) : List α :=
  sel.filterMap (fun i => xs.get? i)

/-- The train/validation split of `training_data_preprocessing`
(`CNN.py` lines 284-291): validation is the sampled rows; training is the
cleaned frame with the labels of the sampled frame's *reset* index
(`0 .. nVal-1`) dropped, i.e. the cleaned frame minus its first `nVal` rows. -/
def training_data_split {α : Type} (xs : List α) (test_size : ℚ) (sel : List ℕ) :
    List α × List α :=
  let nVal := (pyTrunc (test_size * (xs.length : ℚ))).toNat
  let dfVal := valSample xs sel
  let dfTrain := xs.drop nVal
  (dfTrain, dfVal)

/-- C1 (code bug): the split is not disjoint and training is not the
complement of validation.  With two fully-annotated samples `["A", "B"]`,
`test_size = 1/2`, and the sampler drawing row 1 (a draw of the required
size `int(0.5 * 2) = 1` with a valid, duplicate-free position), the code
produces Train = `["B"]` and Validation = `["B"]`: sample `B` appears in
both subsets and sample `A` in neither, contradicting the claimed
disjoint complement split. -/
theorem training_data_split_overlap_bug :
    ([1].length = (pyTrunc ((1/2 : ℚ) * ((["A", "B"] : List String).length : ℚ))).toNat
      ∧ (1 : ℕ) < (["A", "B"] : List String).length ∧ [1].Nodup)
    ∧ training_data_split ["A", "B"] (1/2) [1] = (["B"], ["B"])
    ∧ "B" ∈ (training_data_split ["A", "B"] (1/2) [1]).1
    ∧ "B" ∈ (training_data_split ["A", "B"] (1/2) [1]).2
    ∧ "A" ∉ (training_data_split ["A", "B"] (1/2) [1]).1
    ∧ "A" ∉ (training_data_split ["A", "B"] (1/2) [1]).2 := by
  refine ⟨⟨?_, ?_, ?_⟩, ?_, ?_, ?_, ?_, ?_⟩ <;> with_unfolding_all decide

/-! ### C10: the checkpoint file path of `WindowCallback`

`CNN.py` line 822 (`__init__`): `self.filepath = os.path.join(self.folder,
self.model_name) + ".h5"`; the periodic save at line 866 writes to
`self.filepath`.  `CNN.py` line 873 (`on_train_end`): `filepath =
os.path.join(self.folder, self.model_name) + ".h5"`. -/

/-- `os.path.join(folder, name)` for the cases the callback exercises
(a non-empty project folder path and a bare file name). -/
def pathJoin (folder name : String) : String :=
  if folder = "" then name
  else if folder.data.getLast? = some '/' then folder ++ name
  else folder ++ "/" ++ name

/-- The path computed in `WindowCallback.__init__` (line 822), used by the
periodic best-so-far save in `on_epoch_end` (line 866). -/
def windowCallback_init_filepath (folder model_name : String) : String :=
  pathJoin folder model_name ++ ".h5"

/-- The path recomputed in `WindowCallback.on_train_end` (line 873) for the
final unconditional save. -/
def on_train_end_filepath (folder model_name : String) : String :=
  pathJoin folder model_name ++ ".h5"

/-- The default model name of `WindowCallback.__init__` (line 815). -/
def default_model_name : String := "landmarks_detection_model.h5"

/-- C10: every checkpoint write (periodic best-so-far save and final
unconditional save) targets the same path, formed by joining the project
folder with the model name and appending the literal suffix `".h5"`
regardless of the name's existing extension; the default model name
`"landmarks_detection_model.h5"` therefore yields a file named
`"landmarks_detection_model.h5.h5"`. -/
theorem checkpoint_filepath_same_and_double_suffix :
    (∀ folder name : String,
      windowCallback_init_filepath folder name = on_train_end_filepath folder name)
    ∧ (∀ folder name : String,
      windowCallback_init_filepath folder name = pathJoin folder name ++ ".h5")
    ∧ windowCallback_init_filepath "proj" default_model_name
        = "proj/landmarks_detection_model.h5.h5" := by
  refine ⟨fun _ _ => rfl, fun _ _ => rfl, ?_⟩
  decide

/-! ### The image model

A grayscale image: height, width, and a rational-valued pixel function
(Python stores `uint16` or float pixels; exact rationals model both). -/

structure Img where
  height : ℕ
  width : ℕ
  pix : ℕ → ℕ → ℚ

/-- The list of strictly positive pixel values of an image
(numpy `img[img > 0]`). -/
def posVals (img : Img) : List ℚ :=
  ((List.range img.height).flatMap
    (fun i => (List.range img.width).map (fun j => img.pix i j))).filter
    (fun q => decide (0 < q))

/-- `np.mean(img[img > 0])`: the mean of the strictly positive pixels
(undefined — modelled as `0` — when no pixel is positive; the source treats
that case as a fatal precondition failure). -/
def mean_positive (img : Img) : ℚ :=
  (posVals img).sum / ((posVals img).length : ℚ)

/-! ### GeometricTransform: image side

`image_downsample` (`CNN.py` lines 25-51), `rotate_image` (lines 81-100)
and `scale_image` (lines 102-143).  The interpolation primitives
(`skimage.transform.resize`, `scipy.ndimage.rotate`, `scipy.ndimage.zoom`)
are external libraries, taken as parameters of the embedding. -/

/-- `image_downsample(img, binning, normalize)` (`CNN.py` lines 25-51):
`width = int(img.shape[0] / binning)`, `height = int(img.shape[1] / binning)`,
`resize(img, (width, height), ...).astype('uint16')`, then optional division
by the mean of the strictly positive samples.  `resizeFn img r c` stands for
`skimage.transform.resize` producing an `r × c` output. -/
def image_downsample (resizeFn : Img → ℕ → ℕ → Img) (img : Img) (binning : ℕ)
    (normalize : Bool) : Img :=
  let w := img.height / binning
  let h := img.width / binning
  let r := resizeFn img w h
  let r16 : Img := { r with pix := fun i j => (((pyTrunc (r.pix i j)).emod 65536 : ℤ) : ℚ) }
  if normalize then { r16 with pix := fun i j => r16.pix i j / mean_positive r16 }
  else r16

/-- `rotate_image(image, angle)` (`CNN.py` lines 81-100): calls
`ndimage.rotate(image, -angle, reshape=False, mode='constant', cval=av)`
with `av` the mean of the strictly positive input samples.  `libRotate img a c`
stands for `scipy.ndimage.rotate` by `a` degrees with fill value `c`. -/
def rotate_image (libRotate : Img → ℚ → ℚ → Img) (image : Img) (angle : ℚ) : Img :=
  let av_brightness := mean_positive image
  libRotate image (-angle) av_brightness

/-- `scale_image(image, zoom)` (`CNN.py` lines 102-143): zooms via
`ndimage.zoom` (parameter `zoomFn`, with the constant fill value), then
center-crops back to the original size when `zoom > 1`, or pastes the
shrunk image centered onto a background filled with the mean of the
strictly positive input samples otherwise. -/
def scale_image (zoomFn : Img → ℚ → ℚ → Img) (image : Img) (zoom : ℚ) : Img :=
  let av_color := mean_positive image
  let scaled := zoomFn image zoom av_color
  if 1 < zoom then
    let startx := scaled.width / 2 - image.width / 2
    let starty := scaled.height / 2 - image.height / 2
    { height := min image.height (scaled.height - starty),
      width := min image.width (scaled.width - startx),
      pix := fun i j => scaled.pix (starty + i) (startx + j) }
  else
    let startx := image.width / 2 - scaled.width / 2
    let starty := image.height / 2 - scaled.height / 2
    { height := image.height, width := image.width,
      pix := fun i j =>
        if starty ≤ i ∧ i < starty + scaled.height ∧ startx ≤ j ∧ j < startx + scaled.width
        then scaled.pix (i - starty) (j - startx)
        else av_color }

/-! ### The landmark dataframe model

`df_landmarks` is a pandas dataframe with a `"file name"` key column and one
column per landmark holding an integer coordinate pair (serialized as
`"[x, y]"` text; the serialization round-trips through `ast.literal_eval`,
so cells are modelled directly as pairs).  A row is a file-name key plus a
cell function from column names to coordinate pairs. -/

structure Row where
  fileName : String
  cells : String → ℤ × ℤ

/-- A landmark dataframe: a list of rows. -/
abbrev DF := List Row

/-- `df.loc[df["file name"] == fname, col].values[0]`: the cell of the first
row whose file-name key matches, `none` when no row matches (pandas raises
`IndexError` there). -/
def dfLookup : DF → String → String → Option (ℤ × ℤ)
  | [], _, _ => none
  | r :: rs, fname, col =>
    if r.fileName = fname then some (r.cells col) else dfLookup rs fname col

/-- Overwrite one cell of a row. -/
def setCell (r : Row) (col : String) (v : ℤ × ℤ) : Row :=
  ⟨r.fileName, fun c => if c = col then v else r.cells c⟩

/-- `df.loc[df["file name"] == fname, col] = v`: overwrite the `col` cell of
every row whose file-name key matches. -/
def dfSet : DF → String → String → ℤ × ℤ → DF
  | [], _, _, _ => []
  | r :: rs, fname, col, v =>
    (if r.fileName = fname then setCell r col v else r) :: dfSet rs fname col v

/-- First-occurrence deduplication keyed by `key`, with an accumulator of
already-seen keys. -/
def uniqueByAux {α : Type} {β : Type} [DecidableEq β] (key : α → β)
    (seen : List β) : List α → List α
  | [] => []
  | x :: xs =>
    if key x ∈ seen then uniqueByAux key seen xs
    else x :: uniqueByAux key (key x :: seen) xs

/-- First-occurrence deduplication keyed by `key`: the order-preserving
`pandas.Series.unique()`. -/
def uniqueBy {α : Type} {β : Type} [DecidableEq β] (key : α → β) (l : List α) :
    List α :=
  uniqueByAux key [] l

/-- `pandas.Series.unique()` on a plain series. -/
def unique {α : Type} [DecidableEq α] (l : List α) : List α :=
  uniqueBy id l

/-- The common shape of the three per-file landmark-table transformations:
`for lmk in df_model["name"].unique():` read the cell of the row keyed by
`fname`, transform it with `F`, and write it back.  Fails (`none`, pandas
`IndexError`) when no row matches. -/
def lmkMapOp (F : ℤ × ℤ → ℤ × ℤ) (fname : String) (vocab : List String)
    (df : DF) : Option DF :=
  vocab.foldl
    (fun od lmk => od.bind
      (fun d => (dfLookup d fname lmk).map (fun xy => dfSet d fname lmk (F xy))))
    (some df)

/-- `landmarks_downsample(file_name, df_landmarks, df_model, binning)`
(`CNN.py` lines 53-79): each coordinate is divided by the binning factor by
float true division, then truncated with `int()`. -/
def landmarks_downsample (file_name : String) (df : DF) (model_names : List String)
    (binning : ℕ) : Option DF :=
  lmkMapOp
    (fun p => (pyTrunc ((p.1 : ℚ) / (binning : ℚ)), pyTrunc ((p.2 : ℚ) / (binning : ℚ))))
    file_name (unique model_names) df

/-- `scale_landmarks(img, zoom, df_landmarks, df_model, filename)`
(`CNN.py` lines 174-206): `ox, oy = img.shape[1]/2, img.shape[0]/2`;
`qx = round(ox + zoom*(x - ox))`, `qy = round(oy + zoom*(y - oy))`. -/
def scale_landmarks (imgH imgW : ℕ) (zoom : ℚ) (df : DF) (model_names : List String)
    (filename : String) : Option DF :=
  let ox : ℚ := (imgW : ℚ) / 2
  let oy : ℚ := (imgH : ℚ) / 2
  lmkMapOp
    (fun p => (pyRound (ox + zoom * ((p.1 : ℚ) - ox)), pyRound (oy + zoom * ((p.2 : ℚ) - oy))))
    filename (unique model_names) df

/-- `rotate_landmarks(img, angle, df_landmarks_train, df_model, filename)`
(`CNN.py` lines 208-241): `ox, oy = img.shape[1]/2, img.shape[0]/2`;
`rad_angle = angle * math.pi / 180`;
`qx = round(ox + cos(rad_angle)*(x - ox) - sin(rad_angle)*(y - oy))`,
`qy = round(oy + sin(rad_angle)*(x - ox) + cos(rad_angle)*(y - oy))`.
`cosF`, `sinF` stand for `math.cos` / `math.sin`, and `piV` for the float
constant `math.pi`. -/
def rotate_landmarks (cosF sinF : ℚ → ℚ) (piV : ℚ) (imgH imgW : ℕ) (angle : ℚ)
    (df : DF) (model_names : List String) (filename : String) : Option DF :=
  let ox : ℚ := (imgW : ℚ) / 2
  let oy : ℚ := (imgH : ℚ) / 2
  let rad_angle : ℚ := angle * piV / 180
  lmkMapOp
    (fun p =>
      (pyRound (ox + cosF rad_angle * ((p.1 : ℚ) - ox) - sinF rad_angle * ((p.2 : ℚ) - oy)),
       pyRound (oy + sinF rad_angle * ((p.1 : ℚ) - ox) + cosF rad_angle * ((p.2 : ℚ) - oy))))
    filename (unique model_names) df

/-! ### Dataframe lemmas -/

theorem setCell_fileName (r : Row) (col : String) (v : ℤ × ℤ) :
    (setCell r col v).fileName = r.fileName := rfl

theorem setCell_cells_self (r : Row) (col : String) (v : ℤ × ℤ) :
    (setCell r col v).cells col = v := by
  simp [setCell]

theorem setCell_cells_other (r : Row) (col c : String) (v : ℤ × ℤ) (h : c ≠ col) :
    (setCell r col v).cells c = r.cells c := by
  simp [setCell, h]

theorem dfLookup_cons (r : Row) (rs : DF) (g col : String) :
    dfLookup (r :: rs) g col
      = if r.fileName = g then some (r.cells col) else dfLookup rs g col := rfl

theorem dfSet_cons (r : Row) (rs : DF) (f c : String) (v : ℤ × ℤ) :
    dfSet (r :: rs) f c v
      = (if r.fileName = f then setCell r c v else r) :: dfSet rs f c v := rfl

theorem dfLookup_dfSet_self (df : DF) (f c : String) (v : ℤ × ℤ) :
    dfLookup (dfSet df f c v) f c = (dfLookup df f c).map (fun _ => v) := by
  induction df with
  | nil => rfl
  | cons r rs ih =>
    rw [dfSet_cons]
    by_cases hf : r.fileName = f
    · rw [if_pos hf, dfLookup_cons, dfLookup_cons, setCell_fileName,
        if_pos hf, if_pos hf, setCell_cells_self]
      rfl
    · rw [if_neg hf, dfLookup_cons, dfLookup_cons, if_neg hf, if_neg hf, ih]

theorem dfLookup_dfSet_other_col (df : DF) (f c g col : String) (v : ℤ × ℤ)
    (h : col ≠ c) :
    dfLookup (dfSet df f c v) g col = dfLookup df g col := by
  induction df with
  | nil => rfl
  | cons r rs ih =>
    rw [dfSet_cons]
    by_cases hf : r.fileName = f
    · rw [if_pos hf, dfLookup_cons, dfLookup_cons, setCell_fileName]
      by_cases hg : r.fileName = g
      · rw [if_pos hg, if_pos hg, setCell_cells_other _ _ _ _ h]
      · rw [if_neg hg, if_neg hg, ih]
    · rw [if_neg hf, dfLookup_cons, dfLookup_cons]
      by_cases hg : r.fileName = g
      · rw [if_pos hg, if_pos hg]
      · rw [if_neg hg, if_neg hg, ih]

theorem dfLookup_dfSet_other_fname (df : DF) (f c g col : String) (v : ℤ × ℤ)
    (h : g ≠ f) :
    dfLookup (dfSet df f c v) g col = dfLookup df g col := by
  induction df with
  | nil => rfl
  | cons r rs ih =>
    rw [dfSet_cons]
    by_cases hf : r.fileName = f
    · have hg : r.fileName ≠ g := by rw [hf]; exact fun hgf => h hgf.symm
      rw [if_pos hf, dfLookup_cons, dfLookup_cons, setCell_fileName,
        if_neg hg, if_neg hg, ih]
    · rw [if_neg hf, dfLookup_cons, dfLookup_cons]
      by_cases hg : r.fileName = g
      · rw [if_pos hg, if_pos hg]
      · rw [if_neg hg, if_neg hg, ih]

theorem dfLookup_dfSet_current (df : DF) (f c : String) (v : ℤ × ℤ)
    (h : dfLookup df f c = some v) (g col : String) :
    dfLookup (dfSet df f c v) g col = dfLookup df g col := by
  by_cases hg : g = f
  · by_cases hcol : col = c
    · subst hg; subst hcol
      rw [dfLookup_dfSet_self, h]
      rfl
    · exact dfLookup_dfSet_other_col df f c g col v hcol
  · exact dfLookup_dfSet_other_fname df f c g col v hg

/-! ### Lemmas about `uniqueBy` and `unique` -/

theorem mem_of_mem_uniqueByAux {α β : Type} [DecidableEq β] (key : α → β) :
    ∀ (l : List α) (seen : List β) (a : α), a ∈ uniqueByAux key seen l → a ∈ l := by
  intro l
  induction l with
  | nil => intro seen a h; simp [uniqueByAux] at h
  | cons x xs ih =>
    intro seen a h
    rw [uniqueByAux] at h
    by_cases hx : key x ∈ seen
    · rw [if_pos hx] at h
      exact List.mem_cons_of_mem x (ih seen a h)
    · rw [if_neg hx] at h
      rcases List.mem_cons.1 h with h1 | h2
      · exact h1 ▸ List.mem_cons_self x xs
      · exact List.mem_cons_of_mem x (ih _ a h2)

theorem uniqueByAux_seen_and_pairwise {α β : Type} [DecidableEq β] (key : α → β) :
    ∀ (l : List α) (seen : List β),
      (∀ a ∈ uniqueByAux key seen l, key a ∉ seen)
      ∧ (uniqueByAux key seen l).Pairwise (fun a b => key a ≠ key b) := by
  intro l
  induction l with
  | nil => intro seen; exact ⟨fun a h => by simp [uniqueByAux] at h, by simp [uniqueByAux]⟩
  | cons x xs ih =>
    intro seen
    rw [uniqueByAux]
    by_cases hx : key x ∈ seen
    · rw [if_pos hx]
      exact ih seen
    · rw [if_neg hx]
      constructor
      · intro a ha
        rcases List.mem_cons.1 ha with h1 | h2
        · exact h1 ▸ hx
        · intro hseen
          exact (ih (key x :: seen)).1 a h2 (List.mem_cons_of_mem _ hseen)
      · refine List.Pairwise.cons ?_ (ih (key x :: seen)).2
        intro b hb
        have := (ih (key x :: seen)).1 b hb
        intro hxb
        exact this (hxb ▸ List.mem_cons_self _ _)

theorem pairwise_uniqueBy {α β : Type} [DecidableEq β] (key : α → β) (l : List α) :
    (uniqueBy key l).Pairwise (fun a b => key a ≠ key b) :=
  (uniqueByAux_seen_and_pairwise key l []).2

theorem mem_of_mem_uniqueBy {α β : Type} [DecidableEq β] (key : α → β)
    (l : List α) (a : α) (h : a ∈ uniqueBy key l) : a ∈ l :=
  mem_of_mem_uniqueByAux key l [] a h

theorem nodup_unique {α : Type} [DecidableEq α] (l : List α) : (unique l).Nodup :=
  pairwise_uniqueBy id l

theorem mem_of_mem_unique {α : Type} [DecidableEq α] {l : List α} {a : α}
    (h : a ∈ unique l) : a ∈ l :=
  mem_of_mem_uniqueBy id l a h

/-! ### Lemmas about `lmkMapOp` -/

theorem lmkMapOp_nil (F : ℤ × ℤ → ℤ × ℤ) (f : String) (df : DF) :
    lmkMapOp F f [] df = some df := rfl

theorem lmkMapOp_none_aux (F : ℤ × ℤ → ℤ × ℤ) (f : String) :
    ∀ vocab : List String,
      List.foldl
        (fun od lmk => od.bind
          (fun d => (dfLookup d f lmk).map (fun xy => dfSet d f lmk (F xy))))
        none vocab = none := by
  intro vocab
  induction vocab with
  | nil => rfl
  | cons lmk rest ih => simpa using ih

theorem lmkMapOp_cons (F : ℤ × ℤ → ℤ × ℤ) (f lmk : String) (rest : List String)
    (df : DF) :
    lmkMapOp F f (lmk :: rest) df
      = match dfLookup df f lmk with
        | none => none
        | some xy => lmkMapOp F f rest (dfSet df f lmk (F xy)) := by
  cases h : dfLookup df f lmk with
  | none =>
    show List.foldl _ _ (lmk :: rest) = none
    rw [List.foldl_cons]
    have : (some df).bind
        (fun d => (dfLookup d f lmk).map (fun xy => dfSet d f lmk (F xy))) = none := by
      simp [h]
    rw [this]
    exact lmkMapOp_none_aux F f rest
  | some xy =>
    show List.foldl _ _ (lmk :: rest) = _
    rw [List.foldl_cons]
    have : (some df).bind
        (fun d => (dfLookup d f lmk).map (fun xy => dfSet d f lmk (F xy)))
        = some (dfSet df f lmk (F xy)) := by
      simp [h]
    rw [this]
    rfl

/-- Lookups at a column outside the iterated vocabulary are unchanged by a
successful `lmkMapOp`. -/
theorem lmkMapOp_lookup_not_mem (F : ℤ × ℤ → ℤ × ℤ) (f : String) :
    ∀ (vocab : List String) (df df' : DF), lmkMapOp F f vocab df = some df' →
      ∀ col, col ∉ vocab → ∀ g, dfLookup df' g col = dfLookup df g col := by
  intro vocab
  induction vocab with
  | nil =>
    intro df df' h col _ g
    rw [lmkMapOp_nil] at h
    cases h
    rfl
  | cons lmk rest ih =>
    intro df df' h col hcol g
    rw [lmkMapOp_cons] at h
    cases hl : dfLookup df f lmk with
    | none => rw [hl] at h; cases h
    | some xy =>
      rw [hl] at h
      have hcol_rest : col ∉ rest := fun hc => hcol (List.mem_cons_of_mem _ hc)
      have hcol_lmk : col ≠ lmk := fun hc => hcol (hc ▸ List.mem_cons_self _ _)
      rw [ih _ _ h col hcol_rest g]
      exact dfLookup_dfSet_other_col df f lmk g col (F xy) hcol_lmk

/-- Each vocabulary landmark cell of the keyed row is transformed by `F`
after a successful `lmkMapOp` over a duplicate-free vocabulary. -/
theorem lmkMapOp_lookup_mem (F : ℤ × ℤ → ℤ × ℤ) (f : String) :
    ∀ (vocab : List String), vocab.Nodup →
      ∀ (df df' : DF), lmkMapOp F f vocab df = some df' →
        ∀ lmk ∈ vocab, dfLookup df' f lmk = (dfLookup df f lmk).map F := by
  intro vocab
  induction vocab with
  | nil => intro _ df df' _ lmk hmem; cases hmem
  | cons a rest ih =>
    intro hnd df df' h lmk hmem
    rw [lmkMapOp_cons] at h
    cases hl : dfLookup df f a with
    | none => rw [hl] at h; cases h
    | some xy =>
      rw [hl] at h
      have ha_rest : a ∉ rest := (List.nodup_cons.1 hnd).1
      rcases List.mem_cons.1 hmem with rfl | hlmk_rest
      · have h1 : dfLookup (dfSet df f lmk (F xy)) f lmk = some (F xy) := by
          rw [dfLookup_dfSet_self, hl]
          rfl
        rw [lmkMapOp_lookup_not_mem F f rest _ _ h lmk ha_rest f, h1, hl]
        rfl
      · have hne : lmk ≠ a := fun hc => ha_rest (hc ▸ hlmk_rest)
        rw [ih (List.nodup_cons.1 hnd).2 _ _ h lmk hlmk_rest,
          dfLookup_dfSet_other_col df f a f lmk (F xy) hne]

/-- A pointwise-identity transformation leaves every lookup unchanged. -/
theorem lmkMapOp_id_lookup (F : ℤ × ℤ → ℤ × ℤ) (hF : ∀ p, F p = p) (f : String) :
    ∀ (vocab : List String) (df df' : DF), lmkMapOp F f vocab df = some df' →
      ∀ g col, dfLookup df' g col = dfLookup df g col := by
  intro vocab
  induction vocab with
  | nil =>
    intro df df' h g col
    rw [lmkMapOp_nil] at h
    cases h
    rfl
  | cons a rest ih =>
    intro df df' h g col
    rw [lmkMapOp_cons] at h
    cases hl : dfLookup df f a with
    | none => rw [hl] at h; cases h
    | some xy =>
      rw [hl] at h
      rw [ih _ _ h g col, hF xy]
      exact dfLookup_dfSet_current df f a xy hl g col

/-! ### The frame property (C9)

`RowOK V fname r r'` relates an original row `r` to its transformed version
`r'`: the file-name key is untouched, rows keyed differently from `fname`
are untouched entirely, and columns outside the vocabulary `V` are untouched
in every row. -/

def RowOK (V : List String) (fname : String) (r r' : Row) : Prop :=
  r'.fileName = r.fileName
    ∧ (r.fileName ≠ fname → r' = r)
    ∧ ∀ col, col ∉ V → r'.cells col = r.cells col

/-- The frame property for whole dataframes: rows correspond pairwise. -/
def FrameOK (V : List String) (fname : String) (df df' : DF) : Prop :=
  List.Forall₂ (RowOK V fname) df df'

theorem rowOK_refl (V : List String) (fname : String) (r : Row) : RowOK V fname r r :=
  ⟨rfl, fun _ => rfl, fun _ _ => rfl⟩

theorem rowOK_trans {V : List String} {fname : String} {r₁ r₂ r₃ : Row}
    (h12 : RowOK V fname r₁ r₂) (h23 : RowOK V fname r₂ r₃) : RowOK V fname r₁ r₃ := by
  refine ⟨h23.1.trans h12.1, ?_, fun col hc => (h23.2.2 col hc).trans (h12.2.2 col hc)⟩
  intro hne
  have h2 := h12.2.1 hne
  have hne2 : r₂.fileName ≠ fname := by rw [h12.1]; exact hne
  rw [h23.2.1 hne2, h2]

theorem frameOK_refl (V : List String) (fname : String) (df : DF) :
    FrameOK V fname df df :=
  List.forall₂_same.2 (fun r _ => rowOK_refl V fname r)

theorem frameOK_trans {V : List String} {fname : String} :
    ∀ {d₁ d₂ d₃ : DF}, FrameOK V fname d₁ d₂ → FrameOK V fname d₂ d₃ →
      FrameOK V fname d₁ d₃ := by
  intro d₁ d₂ d₃ h12
  induction h12 generalizing d₃ with
  | nil => intro h23; cases h23; exact List.Forall₂.nil
  | cons hr hrest ih =>
    intro h23
    cases h23 with
    | cons hr2 hrest2 => exact List.Forall₂.cons (rowOK_trans hr hr2) (ih hrest2)

theorem frameOK_mono {V V' : List String} {fname : String}
    (hsub : ∀ c, c ∉ V' → c ∉ V) {df df' : DF} (h : FrameOK V fname df df') :
    FrameOK V' fname df df' :=
  List.Forall₂.imp
    (fun _ _ hr => ⟨hr.1, hr.2.1, fun col hc => hr.2.2 col (hsub col hc)⟩) h

theorem frameOK_dfSet (V : List String) (fname c : String) (hc : c ∈ V)
    (v : ℤ × ℤ) : ∀ df : DF, FrameOK V fname df (dfSet df fname c v) := by
  intro df
  induction df with
  | nil => exact List.Forall₂.nil
  | cons r rs ih =>
    rw [dfSet_cons]
    refine List.Forall₂.cons ?_ ih
    by_cases hf : r.fileName = fname
    · rw [if_pos hf]
      refine ⟨rfl, fun hne => absurd hf hne, fun col hcol => ?_⟩
      exact setCell_cells_other r c col v (fun h => hcol (h ▸ hc))
    · rw [if_neg hf]
      exact rowOK_refl V fname r

/-- A successful `lmkMapOp` satisfies the frame property with respect to the
vocabulary it iterates. -/
theorem lmkMapOp_frame (F : ℤ × ℤ → ℤ × ℤ) (fname : String) :
    ∀ (vocab : List String) (df df' : DF),
      lmkMapOp F fname vocab df = some df' → FrameOK vocab fname df df' := by
  intro vocab
  induction vocab with
  | nil =>
    intro df df' h
    rw [lmkMapOp_nil] at h
    cases h
    exact frameOK_refl _ _ _
  | cons lmk rest ih =>
    intro df df' h
    rw [lmkMapOp_cons] at h
    cases hl : dfLookup df fname lmk with
    | none => rw [hl] at h; cases h
    | some xy =>
      rw [hl] at h
      have h1 : FrameOK (lmk :: rest) fname df (dfSet df fname lmk (F xy)) :=
        frameOK_dfSet _ fname lmk (List.mem_cons_self _ _) (F xy) df
      have h2 : FrameOK (lmk :: rest) fname (dfSet df fname lmk (F xy)) df' :=
        frameOK_mono (fun c hc hcr => hc (List.mem_cons_of_mem _ hcr)) (ih _ _ h)
      exact frameOK_trans h1 h2

/-! ### C9: frame property of the per-file landmark-table transformations -/

/-- C9: each per-file landmark-table transformation (`landmarks_downsample`,
`scale_landmarks`, `rotate_landmarks`) leaves the file-name key column
untouched, leaves every row keyed by a different file name entirely
untouched, and leaves every column outside the landmark vocabulary
(`df_model["name"]`) untouched in every row. -/
theorem lmk_table_transforms_frame :
    ∀ (df : DF) (model_names : List String) (fname : String) (binning : ℕ)
      (imgH imgW : ℕ) (zoom : ℚ) (cosF sinF : ℚ → ℚ) (piV angle : ℚ),
      (∀ d₁, landmarks_downsample fname df model_names binning = some d₁ →
        FrameOK model_names fname df d₁)
      ∧ (∀ d₂, scale_landmarks imgH imgW zoom df model_names fname = some d₂ →
        FrameOK model_names fname df d₂)
      ∧ (∀ d₃, rotate_landmarks cosF sinF piV imgH imgW angle df model_names fname
          = some d₃ → FrameOK model_names fname df d₃) := by
  intro df model_names fname binning imgH imgW zoom cosF sinF piV angle
  have hsub : ∀ c, c ∉ model_names → c ∉ unique model_names :=
    fun c hc hcu => hc (mem_of_mem_unique hcu)
  refine ⟨fun d₁ h₁ => ?_, fun d₂ h₂ => ?_, fun d₃ h₃ => ?_⟩
  · exact frameOK_mono hsub (lmkMapOp_frame _ fname (unique model_names) df d₁ h₁)
  · exact frameOK_mono hsub (lmkMapOp_frame _ fname (unique model_names) df d₂ h₂)
  · exact frameOK_mono hsub (lmkMapOp_frame _ fname (unique model_names) df d₃ h₃)

/-- Witness for C9 at a concrete two-row table. -/
theorem lmk_table_transforms_frame_witness :
    FrameOK ["L1"] "a.png"
      [⟨"a.png", fun _ => ((4 : ℤ), (6 : ℤ))⟩, ⟨"b.png", fun _ => ((10 : ℤ), (12 : ℤ))⟩]
      [⟨"a.png", fun c => if c = "L1" then ((2 : ℤ), (3 : ℤ)) else ((4 : ℤ), (6 : ℤ))⟩,
       ⟨"b.png", fun _ => ((10 : ℤ), (12 : ℤ))⟩]
    ∧ FrameOK ["L1"] "a.png"
      [⟨"a.png", fun _ => ((4 : ℤ), (6 : ℤ))⟩, ⟨"b.png", fun _ => ((10 : ℤ), (12 : ℤ))⟩]
      [⟨"a.png", fun c => if c = "L1" then ((6 : ℤ), (10 : ℤ)) else ((4 : ℤ), (6 : ℤ))⟩,
       ⟨"b.png", fun _ => ((10 : ℤ), (12 : ℤ))⟩]
    ∧ FrameOK ["L1"] "a.png"
      [⟨"a.png", fun _ => ((4 : ℤ), (6 : ℤ))⟩, ⟨"b.png", fun _ => ((10 : ℤ), (12 : ℤ))⟩]
      [⟨"a.png", fun c => if c = "L1" then ((4 : ℤ), (6 : ℤ)) else ((4 : ℤ), (6 : ℤ))⟩,
       ⟨"b.png", fun _ => ((10 : ℤ), (12 : ℤ))⟩] := by
  refine ⟨?_, ?_, ?_⟩
  · exact (lmk_table_transforms_frame
      [⟨"a.png", fun _ => (4, 6)⟩, ⟨"b.png", fun _ => (10, 12)⟩]
      ["L1"] "a.png" 2 4 4 2 (fun _ => 1) (fun _ => 0) 3 90).1 _
      (by with_unfolding_all rfl)
  · exact (lmk_table_transforms_frame
      [⟨"a.png", fun _ => (4, 6)⟩, ⟨"b.png", fun _ => (10, 12)⟩]
      ["L1"] "a.png" 2 4 4 2 (fun _ => 1) (fun _ => 0) 3 90).2.1 _
      (by with_unfolding_all rfl)
  · exact (lmk_table_transforms_frame
      [⟨"a.png", fun _ => (4, 6)⟩, ⟨"b.png", fun _ => (10, 12)⟩]
      ["L1"] "a.png" 2 4 4 2 (fun _ => 1) (fun _ => 0) 3 90).2.2 _
      (by with_unfolding_all rfl)

/-! ### C3: downsampling of images and landmarks -/

/-- C3 (counterexample): the claim says downsampled landmark coordinates
equal `round(original / factor)`, but the source uses `int()` (truncation).
For the landmark `(3, 1)` and factor `2` the code stores `(1, 0)` while
`round(3/2) = 2`: the claimed value `(2, 0)` differs from the actual
`(1, 0)`. -/
theorem landmarks_downsample_trunc_counterexample :
    dfLookup
        ((landmarks_downsample "a.png" [⟨"a.png", fun _ => ((3 : ℤ), (1 : ℤ))⟩]
          ["L1"] 2).getD [])
        "a.png" "L1" = some (1, 0)
    ∧ pyRound ((3 : ℚ) / 2) = 2 ∧ pyRound ((1 : ℚ) / 2) = 0
    ∧ (some ((1 : ℤ), (0 : ℤ))
        ≠ some (pyRound ((3 : ℚ) / 2), pyRound ((1 : ℚ) / 2))) := by
  refine ⟨?_, ?_, ?_, ?_⟩ <;> with_unfolding_all decide

/-- C3 (amended): for every image and landmark table and every positive
factor, the downsample pair yields image dimensions `⌊original / factor⌋`
(given that `skimage.transform.resize` returns exactly the requested output
shape) and landmark coordinates truncated toward zero (`int()`, which is the
floor for the nonnegative coordinates) after division by the factor — not
rounded to nearest. -/
theorem downsample_floor_dims_trunc_landmarks :
    ∀ (resizeFn : Img → ℕ → ℕ → Img),
      (∀ im a b, (resizeFn im a b).height = a ∧ (resizeFn im a b).width = b) →
      ∀ (img : Img) (binning : ℕ), 0 < binning → ∀ (normalize : Bool)
      (df df' : DF) (model_names : List String) (fname : String),
      landmarks_downsample fname df model_names binning = some df' →
      ((image_downsample resizeFn img binning normalize).height = img.height / binning
        ∧ (image_downsample resizeFn img binning normalize).width = img.width / binning)
      ∧ ∀ lmk ∈ unique model_names,
          dfLookup df' fname lmk
            = (dfLookup df fname lmk).map
                (fun p => (pyTrunc ((p.1 : ℚ) / (binning : ℚ)),
                           pyTrunc ((p.2 : ℚ) / (binning : ℚ)))) := by
  intro resizeFn hres img binning hbin normalize df df' model_names fname h
  constructor
  · cases normalize with
    | false =>
      exact ⟨(hres img (img.height / binning) (img.width / binning)).1,
        (hres img (img.height / binning) (img.width / binning)).2⟩
    | true =>
      exact ⟨(hres img (img.height / binning) (img.width / binning)).1,
        (hres img (img.height / binning) (img.width / binning)).2⟩
  · exact lmkMapOp_lookup_mem _ fname (unique model_names)
      (nodup_unique model_names) df df' h

/-- Witness for C3 at a concrete image and table. -/
theorem downsample_floor_dims_trunc_landmarks_witness :
    (image_downsample (fun _ a b => ⟨a, b, fun _ _ => 0⟩) ⟨5, 7, fun _ _ => 1⟩ 2
        true).height = 2
    ∧ (image_downsample (fun _ a b => ⟨a, b, fun _ _ => 0⟩) ⟨5, 7, fun _ _ => 1⟩ 2
        true).width = 3
    ∧ dfLookup
        ((landmarks_downsample "a.png" [⟨"a.png", fun _ => ((3 : ℤ), (1 : ℤ))⟩]
          ["L1"] 2).getD [])
        "a.png" "L1"
      = (dfLookup [⟨"a.png", fun _ => ((3 : ℤ), (1 : ℤ))⟩] "a.png" "L1").map
          (fun p => (pyTrunc ((p.1 : ℚ) / (2 : ℚ)), pyTrunc ((p.2 : ℚ) / (2 : ℚ)))) := by
  have h := downsample_floor_dims_trunc_landmarks
    (fun _ a b => ⟨a, b, fun _ _ => 0⟩) (fun _ _ _ => ⟨rfl, rfl⟩)
    ⟨5, 7, fun _ _ => 1⟩ 2 (by decide) true
    [⟨"a.png", fun _ => ((3 : ℤ), (1 : ℤ))⟩]
    ((landmarks_downsample "a.png" [⟨"a.png", fun _ => ((3 : ℤ), (1 : ℤ))⟩]
      ["L1"] 2).getD [])
    ["L1"] "a.png" (by with_unfolding_all rfl)
  exact ⟨h.1.1, h.1.2, h.2 "L1" (by decide)⟩

/-! ### C5: the rotation sign asymmetry -/

/-- The landmark rotation formula exactly as the specification states it:
`qx = ox + cos(θ)(x-ox) − sin(θ)(y-oy)`, `qy = oy + sin(θ)(x-ox) + cos(θ)(y-oy)`,
rounded to integers, with `c` and `s` the cosine and sine of `θ`. -/
def spec_rotation_formula (c s ox oy : ℚ) (p : ℤ × ℤ) : ℤ × ℤ :=
  (pyRound (ox + c * ((p.1 : ℚ) - ox) - s * ((p.2 : ℚ) - oy)),
   pyRound (oy + s * ((p.1 : ℚ) - ox) + c * ((p.2 : ℚ) - oy)))

/-- C5: `rotate_image` hands the library `-angle` while `rotate_landmarks`
transforms every vocabulary landmark of the keyed row with the `+angle`
(standard mathematical) rotation formula about the image midpoint
`(ox, oy) = (width/2, height/2)`, `θ = angle·π/180`, results rounded to
integers.  The sign asymmetry between the two is preserved, not corrected. -/
theorem rotate_image_neg_angle_landmarks_pos_angle :
    (∀ (libRotate : Img → ℚ → ℚ → Img) (image : Img) (angle : ℚ),
      rotate_image libRotate image angle
        = libRotate image (-angle) (mean_positive image))
    ∧ ∀ (cosF sinF : ℚ → ℚ) (piV : ℚ) (imgH imgW : ℕ) (angle : ℚ)
        (df df' : DF) (model_names : List String) (filename : String),
        rotate_landmarks cosF sinF piV imgH imgW angle df model_names filename
          = some df' →
        ∀ lmk ∈ unique model_names,
          dfLookup df' filename lmk
            = (dfLookup df filename lmk).map
                (spec_rotation_formula
                  (cosF (angle * piV / 180)) (sinF (angle * piV / 180))
                  ((imgW : ℚ) / 2) ((imgH : ℚ) / 2)) := by
  refine ⟨fun _ _ _ => rfl, ?_⟩
  intro cosF sinF piV imgH imgW angle df df' model_names filename h lmk hmem
  exact lmkMapOp_lookup_mem _ filename (unique model_names)
    (nodup_unique model_names) df df' h lmk hmem

/-- Witness for C5 at a concrete table and concrete trigonometric data. -/
theorem rotate_image_neg_angle_landmarks_pos_angle_witness :
    dfLookup
        ((rotate_landmarks (fun _ => 1) (fun _ => 0) 3 4 4 90
          [⟨"a.png", fun _ => ((4 : ℤ), (6 : ℤ))⟩] ["L1"] "a.png").getD [])
        "a.png" "L1"
      = (dfLookup [⟨"a.png", fun _ => ((4 : ℤ), (6 : ℤ))⟩] "a.png" "L1").map
          (spec_rotation_formula 1 0 (((4 : ℕ) : ℚ) / 2) (((4 : ℕ) : ℚ) / 2)) := by
  exact rotate_image_neg_angle_landmarks_pos_angle.2
    (fun _ => 1) (fun _ => 0) 3 4 4 90
    [⟨"a.png", fun _ => ((4 : ℤ), (6 : ℤ))⟩]
    ((rotate_landmarks (fun _ => 1) (fun _ => 0) 3 4 4 90
      [⟨"a.png", fun _ => ((4 : ℤ), (6 : ℤ))⟩] ["L1"] "a.png").getD [])
    ["L1"] "a.png" (by with_unfolding_all rfl) "L1" (by decide)

/-! ### C7: scaling with zoom factor 1 -/

/-- C7: scaling with zoom factor `1.0` leaves the image dimensions and every
in-bounds pixel unchanged (given that `ndimage.zoom` at factor `1` with any
fill value is the identity, which scipy guarantees), and leaves every
landmark coordinate unchanged: the formula `q = center + 1.0 × (p − center)`
rounds back to `p` for integer `p`. -/
theorem scale_zoom_one_identity :
    ∀ (zoomFn : Img → ℚ → ℚ → Img) (image : Img),
      (∃ i j, i < image.height ∧ j < image.width ∧ 0 < image.pix i j) →
      zoomFn image 1 (mean_positive image) = image →
      ∀ (df df' : DF) (model_names : List String) (filename : String),
        scale_landmarks image.height image.width 1 df model_names filename
          = some df' →
        ((scale_image zoomFn image 1).height = image.height
          ∧ (scale_image zoomFn image 1).width = image.width
          ∧ ∀ i j, i < image.height → j < image.width →
              (scale_image zoomFn image 1).pix i j = image.pix i j)
        ∧ ∀ g col, dfLookup df' g col = dfLookup df g col := by
  intro zoomFn image _hpos hzoom df df' model_names filename h
  have hnotlt : ¬ (1 : ℚ) < 1 := lt_irrefl 1
  have himg : scale_image zoomFn image 1
      = { height := image.height, width := image.width,
          pix := fun i j =>
            if image.height / 2 - image.height / 2 ≤ i
                ∧ i < image.height / 2 - image.height / 2 + image.height
                ∧ image.width / 2 - image.width / 2 ≤ j
                ∧ j < image.width / 2 - image.width / 2 + image.width
            then image.pix (i - (image.height / 2 - image.height / 2))
              (j - (image.width / 2 - image.width / 2))
            else mean_positive image } := by
    rw [scale_image]
    rw [if_neg hnotlt, hzoom]
  refine ⟨?_, ?_⟩
  · rw [himg]
    refine ⟨rfl, rfl, fun i j hi hj => ?_⟩
    rw [Nat.sub_self, Nat.sub_self]
    have hcond : (0 ≤ i ∧ i < 0 + image.height ∧ 0 ≤ j ∧ j < 0 + image.width) :=
      ⟨Nat.zero_le i, by simpa using hi, Nat.zero_le j, by simpa using hj⟩
    simp only [if_pos hcond, Nat.sub_zero]
  · refine lmkMapOp_id_lookup _ ?_ filename (unique model_names) df df' h
    intro p
    have hx : ((image.width : ℚ) / 2) + 1 * (((p.1 : ℤ) : ℚ) - (image.width : ℚ) / 2)
        = ((p.1 : ℤ) : ℚ) := by ring
    have hy : ((image.height : ℚ) / 2) + 1 * (((p.2 : ℤ) : ℚ) - (image.height : ℚ) / 2)
        = ((p.2 : ℤ) : ℚ) := by ring
    rw [hx, hy, pyRound_intCast, pyRound_intCast]

/-- Witness for C7 at a concrete image (one positive pixel) and table. -/
theorem scale_zoom_one_identity_witness :
    (scale_image (fun im _ _ => im) ⟨1, 1, fun _ _ => 1⟩ 1).height = 1
    ∧ (scale_image (fun im _ _ => im) ⟨1, 1, fun _ _ => 1⟩ 1).width = 1
    ∧ (scale_image (fun im _ _ => im) ⟨1, 1, fun _ _ => 1⟩ 1).pix 0 0
        = (⟨1, 1, fun _ _ => 1⟩ : Img).pix 0 0
    ∧ dfLookup
        ((scale_landmarks 1 1 1 [⟨"a.png", fun _ => ((4 : ℤ), (6 : ℤ))⟩]
          ["L1"] "a.png").getD [])
        "a.png" "L1"
      = dfLookup [⟨"a.png", fun _ => ((4 : ℤ), (6 : ℤ))⟩] "a.png" "L1" := by
  have h := scale_zoom_one_identity (fun im _ _ => im) ⟨1, 1, fun _ _ => 1⟩
    ⟨0, 0, by decide, by decide, by decide⟩ rfl
    [⟨"a.png", fun _ => ((4 : ℤ), (6 : ℤ))⟩]
    ((scale_landmarks 1 1 1 [⟨"a.png", fun _ => ((4 : ℤ), (6 : ℤ))⟩]
      ["L1"] "a.png").getD [])
    ["L1"] "a.png" (by with_unfolding_all rfl)
  exact ⟨h.1.1, h.1.2.1, h.1.2.2 0 0 (by decide) (by decide), h.2 "a.png" "L1"⟩

/-! ### TrainingMonitor: the `WindowCallback` state machine (C4, C6)

`CNN.py` lines 810-874.  The state tracked by the callback: `epochs_left`
(initialised to the configured total, decremented each epoch), the current
epoch counter, the previous epoch's validation loss (`previous_metrics`),
the retained best-so-far snapshot `model_to_save`, and — for the purposes of
this embedding — the history of disk writes as `(epoch, snapshot)` pairs.
The model weights are an abstract type `M`. -/

structure CBState (M : Type) where
  epochsLeft : ℤ
  currentEpoch : ℕ
  lastValLoss : Option ℚ
  modelToSave : Option M
  diskSaves : List (ℕ × Option M)

/-- `WindowCallback.on_epoch_end` (`CNN.py` lines 834-868), restricted to
the checkpoint-relevant state: decrement `epochs_left`, increment the epoch
counter; from the second epoch on, replace the snapshot when the current
validation loss strictly improves on the previous epoch's, and append a disk
write of the retained snapshot when `epochs_left % save_freq == 0`; on the
first epoch, unconditionally capture the current weights and never write. -/
def on_epoch_end {M : Type} (save_freq : ℤ) (st : CBState M) (w : M) (vloss : ℚ) :
    CBState M :=
  let el := st.epochsLeft - 1
  let ce := st.currentEpoch + 1
  if 1 < ce then
    let improved : Bool :=
      match st.lastValLoss with
      | some p => decide (vloss < p)
      | none => false
    let snap := if improved then some w else st.modelToSave
    let saves :=
      if el % save_freq = 0 then st.diskSaves ++ [(ce, snap)] else st.diskSaves
    ⟨el, ce, some vloss, snap, saves⟩
  else
    ⟨el, ce, some vloss, some w, st.diskSaves⟩

/-- `WindowCallback.on_train_end` (`CNN.py` lines 870-874): unconditionally
persist the current live model. -/
def cb_on_train_end {M : Type} (st : CBState M) (live : M) : CBState M :=
  { st with diskSaves := st.diskSaves ++ [(st.currentEpoch, some live)] }

/-- The state right after `__init__`/`on_train_begin`
(`CNN.py` lines 815-832). -/
def initCBState (M : Type) (nb_epochs : ℕ) : CBState M :=
  ⟨nb_epochs, 0, none, none, []⟩

/-- A whole training run: fold `on_epoch_end` over the per-epoch
`(weights, validation loss)` stream, in order. -/
def runEpochs {M : Type} (save_freq : ℤ) (st : CBState M) :
    List (M × ℚ) → CBState M
  | [] => st
  | (w, v) :: rest => runEpochs save_freq (on_epoch_end save_freq st w v) rest

/-- The snapshot policy as the specification states it: starting from the
epoch-1 baseline, each later epoch replaces the snapshot exactly when its
validation loss is strictly below the previous epoch's. -/
def bestSnapshotStep {M : Type} (acc : M × ℚ) (x : M × ℚ) : M × ℚ :=
  (if x.2 < acc.2 then x.1 else acc.1, x.2)

theorem on_epoch_end_fields {M : Type} (f : ℤ) (st : CBState M) (w : M) (v : ℚ) :
    (on_epoch_end f st w v).currentEpoch = st.currentEpoch + 1
    ∧ (on_epoch_end f st w v).epochsLeft = st.epochsLeft - 1
    ∧ (on_epoch_end f st w v).diskSaves.map Prod.fst
        = st.diskSaves.map Prod.fst
          ++ (if 1 < st.currentEpoch + 1 ∧ (st.epochsLeft - 1) % f = 0
              then [st.currentEpoch + 1] else []) := by
  rw [on_epoch_end]
  by_cases hce : 1 < st.currentEpoch + 1
  · by_cases hsave : (st.epochsLeft - 1) % f = 0
    · simp [hce, hsave]
    · simp [hce, hsave]
  · simp [hce]

theorem runEpochs_modelToSave {M : Type} (f : ℤ) :
    ∀ (xs : List (M × ℚ)) (st : CBState M) (snap : M) (prev : ℚ),
      st.modelToSave = some snap → st.lastValLoss = some prev →
      1 ≤ st.currentEpoch →
      (runEpochs f st xs).modelToSave
        = some (xs.foldl bestSnapshotStep (snap, prev)).1 := by
  intro xs
  induction xs with
  | nil =>
    intro st snap prev hm _ _
    simpa [runEpochs] using hm
  | cons x rest ih =>
    intro st snap prev hm hl hce
    obtain ⟨w, v⟩ := x
    rw [runEpochs]
    have hce1 : 1 < st.currentEpoch + 1 := by omega
    have hst : on_epoch_end f st w v
        = ⟨st.epochsLeft - 1, st.currentEpoch + 1, some v,
           some (if v < prev then w else snap),
           if (st.epochsLeft - 1) % f = 0
           then st.diskSaves ++ [(st.currentEpoch + 1, some (if v < prev then w else snap))]
           else st.diskSaves⟩ := by
      rw [on_epoch_end, if_pos hce1, hl, hm]
      by_cases himp : v < prev
      · simp [himp]
      · simp [himp]
    rw [hst]
    have hrec := ih ⟨st.epochsLeft - 1, st.currentEpoch + 1, some v,
        some (if v < prev then w else snap),
        if (st.epochsLeft - 1) % f = 0
        then st.diskSaves ++ [(st.currentEpoch + 1, some (if v < prev then w else snap))]
        else st.diskSaves⟩
      (if v < prev then w else snap) v rfl rfl
      (by show 1 ≤ st.currentEpoch + 1; omega)
    rw [hrec]
    rfl

/-- C6: epoch 1 always captures the current weights as the baseline
snapshot; from epoch 2 on the retained snapshot is replaced exactly when the
current validation loss is strictly below the previous epoch's (most recent
improvement, not the global best).  For validation losses
`[0.5, 0.5, 0.3, 0.3, 0.6]` over five epochs with weights `1..5`, the
retained snapshot after epochs 3, 4 and 5 is the epoch-3 weights. -/
theorem checkpoint_snapshot_policy :
    (∀ (M : Type) (f : ℤ) (nb_epochs : ℕ) (w1 : M) (v1 : ℚ) (xs : List (M × ℚ)),
      (runEpochs f (initCBState M nb_epochs) ((w1, v1) :: xs)).modelToSave
        = some (xs.foldl bestSnapshotStep (w1, v1)).1)
    ∧ (runEpochs 2 (initCBState ℕ 5)
        [(1, 1/2), (2, 1/2), (3, 3/10)]).modelToSave = some 3
    ∧ (runEpochs 2 (initCBState ℕ 5)
        [(1, 1/2), (2, 1/2), (3, 3/10), (4, 3/10)]).modelToSave = some 3
    ∧ (runEpochs 2 (initCBState ℕ 5)
        [(1, 1/2), (2, 1/2), (3, 3/10), (4, 3/10), (5, 3/5)]).modelToSave
      = some 3 := by
  refine ⟨?_, ?_, ?_, ?_⟩
  · intro M f nb w1 v1 xs
    have h1 : on_epoch_end f (initCBState M nb) w1 v1
        = ⟨(nb : ℤ) - 1, 1, some v1, some w1, []⟩ := by
      rw [on_epoch_end, if_neg (by show ¬ 1 < 0 + 1; omega)]
      rfl
    rw [runEpochs, h1]
    exact runEpochs_modelToSave f xs _ w1 v1 rfl rfl (le_refl 1)
  · with_unfolding_all decide
  · with_unfolding_all decide
  · with_unfolding_all decide

theorem runEpochs_currentEpoch {M : Type} (f : ℤ) :
    ∀ (xs : List (M × ℚ)) (st : CBState M),
      (runEpochs f st xs).currentEpoch = st.currentEpoch + xs.length := by
  intro xs
  induction xs with
  | nil => intro st; simp [runEpochs]
  | cons x rest ih =>
    intro st
    obtain ⟨w, v⟩ := x
    rw [runEpochs, ih (on_epoch_end f st w v), (on_epoch_end_fields f st w v).1]
    simp
    omega

theorem runEpochs_saveEpochs {M : Type} (f : ℤ) :
    ∀ (xs : List (M × ℚ)) (st : CBState M),
      (runEpochs f st xs).diskSaves.map Prod.fst
        = st.diskSaves.map Prod.fst
          ++ (List.range xs.length).filterMap
              (fun i =>
                if 1 < st.currentEpoch + i + 1
                    ∧ (st.epochsLeft - ((i : ℤ) + 1)) % f = 0
                then some (st.currentEpoch + i + 1) else none) := by
  intro xs
  induction xs with
  | nil => intro st; simp [runEpochs]
  | cons x rest ih =>
    intro st
    obtain ⟨w, v⟩ := x
    rw [runEpochs, ih (on_epoch_end f st w v)]
    obtain ⟨hce, hel, hds⟩ := on_epoch_end_fields f st w v
    rw [hds, hce, hel, List.append_assoc]
    congr 1
    simp only [List.length_cons]
    rw [List.range_succ_eq_map, List.filterMap_cons, List.filterMap_map]
    have hcomp : ((fun i =>
        if 1 < st.currentEpoch + i + 1 ∧ (st.epochsLeft - ((i : ℤ) + 1)) % f = 0
        then some (st.currentEpoch + i + 1) else none) ∘ Nat.succ)
        = (fun i =>
          if 1 < st.currentEpoch + 1 + i + 1
              ∧ (st.epochsLeft - 1 - ((i : ℤ) + 1)) % f = 0
          then some (st.currentEpoch + 1 + i + 1) else none) := by
      funext i
      show (if 1 < st.currentEpoch + (i + 1) + 1
          ∧ (st.epochsLeft - (((i + 1 : ℕ) : ℤ) + 1)) % f = 0
        then some (st.currentEpoch + (i + 1) + 1) else none) = _
      have e1 : st.currentEpoch + (i + 1) + 1 = st.currentEpoch + 1 + i + 1 := by
        omega
      have e2 : st.epochsLeft - (((i + 1 : ℕ) : ℤ) + 1)
          = st.epochsLeft - 1 - ((i : ℤ) + 1) := by
        push_cast
        ring
      rw [e1, e2]
    rw [hcomp]
    have hc0 : (1 < st.currentEpoch + 0 + 1
          ∧ (st.epochsLeft - ((((0 : ℕ) : ℤ)) + 1)) % f = 0)
        ↔ (1 < st.currentEpoch + 1 ∧ (st.epochsLeft - 1) % f = 0) := by
      norm_num
    by_cases hcond : 1 < st.currentEpoch + 1 ∧ (st.epochsLeft - 1) % f = 0
    · rw [if_pos hcond, if_pos (hc0.mpr hcond)]
      rfl
    · rw [if_neg hcond, if_neg (fun hh => hcond (hc0.mp hh))]
      rfl

/-- C4 (counterexample): with `totalEpochs = 5` and `saveFrequency = 2`,
epoch 1 has `epochsRemaining = 4` and `4 mod 2 = 0`, so the claim predicts a
disk save after epoch 1; but the periodic save lives inside the
`current_epoch > 1` branch, so the run saves only after epochs 3 and 5. -/
theorem checkpoint_disk_save_epochs_counterexample :
    ((4 : ℤ) % 2 = 0)
    ∧ (runEpochs 2 (initCBState ℕ 5)
        [(1, 1), (2, 1), (3, 1), (4, 1), (5, 1)]).diskSaves.map Prod.fst = [3, 5]
    ∧ 1 ∉ (runEpochs 2 (initCBState ℕ 5)
        [(1, 1), (2, 1), (3, 1), (4, 1), (5, 1)]).diskSaves.map Prod.fst := by
  refine ⟨?_, ?_, ?_⟩ <;> with_unfolding_all decide

/-- C4 (amended): during a training run of `n` epochs, the retained
best-so-far snapshot is written to disk after exactly those epochs `e = i+1`
with `e ≥ 2` (the periodic save is skipped on epoch 1, which only captures
the baseline snapshot) and `epochsRemaining = n − e ≡ 0 (mod saveFrequency)`
— for `n = 5`, `saveFrequency = 2` that is epochs 3 and 5, not 1, 3 and 5 —
and at training end the current live model is unconditionally appended as a
final save (targeting the same path, see the file-path theorem). -/
theorem checkpoint_disk_save_epochs :
    ∀ (M : Type) (f : ℤ), 0 < f → ∀ (xs : List (M × ℚ)) (live : M),
      (cb_on_train_end (runEpochs f (initCBState M xs.length) xs) live).diskSaves.map
          Prod.fst
        = (List.range xs.length).filterMap
            (fun (i : ℕ) => if 1 < i + 1 ∧ ((xs.length : ℤ) - ((i : ℤ) + 1)) % f = 0
              then some (i + 1) else none)
          ++ [xs.length]
      ∧ (cb_on_train_end
          (runEpochs f (initCBState M xs.length) xs) live).diskSaves.getLast?
        = some (xs.length, some live) := by
  intro M f _hf xs live
  have hce : (runEpochs f (initCBState M xs.length) xs).currentEpoch = xs.length := by
    rw [runEpochs_currentEpoch]
    show 0 + xs.length = xs.length
    omega
  constructor
  · show ((runEpochs f (initCBState M xs.length) xs).diskSaves
        ++ [((runEpochs f (initCBState M xs.length) xs).currentEpoch, some live)]).map
        Prod.fst = _
    rw [List.map_append, runEpochs_saveEpochs f xs (initCBState M xs.length), hce]
    simp only [initCBState, List.map_nil, List.nil_append, List.map_cons,
      Nat.zero_add]
  · show ((runEpochs f (initCBState M xs.length) xs).diskSaves
        ++ [((runEpochs f (initCBState M xs.length) xs).currentEpoch, some live)]).getLast?
        = _
    rw [List.getLast?_concat, hce]

/-- Witness for C4 at a concrete five-epoch run with save frequency 2:
periodic saves after epochs 3 and 5, final unconditional save of the live
model (epoch count 5). -/
theorem checkpoint_disk_save_epochs_witness :
    (cb_on_train_end (runEpochs 2 (initCBState ℕ 5)
        [(1, 1), (2, 1), (3, 1), (4, 1), (5, 1)]) 9).diskSaves.map Prod.fst
      = [3, 5, 5]
    ∧ (cb_on_train_end (runEpochs 2 (initCBState ℕ 5)
        [(1, 1), (2, 1), (3, 1), (4, 1), (5, 1)]) 9).diskSaves.getLast?
      = some (5, some 9) := by
  have h := checkpoint_disk_save_epochs ℕ 2 (by decide)
    [(1, 1), (2, 1), (3, 1), (4, 1), (5, 1)] 9
  exact ⟨h.1.trans (by with_unfolding_all decide), h.2⟩

/-! ### C2: prediction rescaling in `predict_landmarks`

`CNN.py` lines 726-807.  Each input image is resized to the model's
`(model_height, model_width)` and fed to the network; the network's
reshaped output (indexed sample × landmark × coordinate) is a parameter of
the embedding.  After the loading loop the code computes
`binning_w = image_width / model_width` and
`binning_h = image_height / model_height` from the loop variable `image` —
i.e. from the LAST image in iteration order (lines 774-778) — multiplies
every predicted x by `binning_w` and every y by `binning_h` (lines 788-789),
and converts with `int()` (lines 801-802). -/

/-- The coordinate bookkeeping of `predict_landmarks`: `shapes` lists each
image's native `(height, width)` in iteration order, `preds` the model-space
predictions per sample and landmark.  `none` on an empty batch (the loop
variable `image` would be unbound at line 774). -/
def predict_landmarks (shapes : List (ℕ × ℕ)) (model_height model_width : ℕ)
    (preds : List (List (ℚ × ℚ))) : Option (List (List (ℤ × ℤ))) :=
  match shapes.getLast? with
  | none => none
  | some lastShape =>
    let binning_w : ℚ := (lastShape.2 : ℚ) / (model_width : ℚ)
    let binning_h : ℚ := (lastShape.1 : ℚ) / (model_height : ℚ)
    some (preds.map (fun row => row.map
      (fun p => (pyTrunc (binning_w * p.1), pyTrunc (binning_h * p.2)))))

/-- The rescaling exactly as the specification claims it: each coordinate is
multiplied by the inverse of the resize factor computed from *that image's
own* native size, and rounded to integer pixels. -/
def predict_landmarks_claimed (shapes : List (ℕ × ℕ)) (model_height model_width : ℕ)
    (preds : List (List (ℚ × ℚ))) : List (List (ℤ × ℤ)) :=
  (shapes.zip preds).map (fun sp => sp.2.map
    (fun p => (pyRound (((sp.1.2 : ℚ) / (model_width : ℚ)) * p.1),
               pyRound (((sp.1.1 : ℚ) / (model_height : ℚ)) * p.2))))

/-- C2 (counterexample): for a 128×128 model and a batch of a 256×256 image
followed by a 300×300 image, with model-space predictions `(64, 64)` for the
first image and `(1.1, 1.1)` for the second, the code rescales the *first*
image's landmark by the *second* image's factor `300/128`
(`int(64 · 300/128) = 150`, the claim demands `round(64 · 2) = 128`) and
truncates rather than rounds the second (`int(1.1 · 300/128) = 2`, the claim
demands `round(2.578...) = 3`). -/
theorem predict_rescale_counterexample :
    predict_landmarks [(256, 256), (300, 300)] 128 128
        [[(64, 64)], [(11/10, 11/10)]]
      = some [[(150, 150)], [(2, 2)]]
    ∧ predict_landmarks_claimed [(256, 256), (300, 300)] 128 128
        [[(64, 64)], [(11/10, 11/10)]]
      = [[(128, 128)], [(3, 3)]]
    ∧ ([[((150 : ℤ), (150 : ℤ))], [(2, 2)]]
        ≠ [[((128 : ℤ), (128 : ℤ))], [(3, 3)]]) := by
  refine ⟨?_, ?_, ?_⟩ <;> with_unfolding_all decide

/-- C2 (amended): the rescale factors are computed once, from the *last*
image of the batch, and applied to every image, with `int()` truncation
toward zero instead of rounding.  For batches whose images all share one
native size `(H, W)` — in particular single-image batches — this coincides
with per-image factors: every coordinate is multiplied by the inverse of the
shared resize factor for its axis and truncated; the claim's example (model
128×128, image 256×256, prediction `(64, 64)` ↦ `(128, 128)`) holds. -/
theorem predict_rescale_uniform_shapes :
    ∀ (shapes : List (ℕ × ℕ)) (H W model_height model_width : ℕ)
      (preds : List (List (ℚ × ℚ))),
      shapes ≠ [] → (∀ s ∈ shapes, s = (H, W)) →
      predict_landmarks shapes model_height model_width preds
        = some (preds.map (fun row => row.map
            (fun p => (pyTrunc (((W : ℚ) / (model_width : ℚ)) * p.1),
                       pyTrunc (((H : ℚ) / (model_height : ℚ)) * p.2))))) := by
  intro shapes H W model_height model_width preds hne hall
  cases hl : shapes.getLast? with
  | none => exact absurd (List.getLast?_eq_none_iff.1 hl) hne
  | some s =>
    have hs : s = (H, W) := hall s (List.mem_of_getLast?_eq_some hl)
    subst hs
    simp only [predict_landmarks]
    rw [hl]

/-- Witness for C2: the claim's own example, a single 256×256 image with a
128×128 model and model-space prediction `(64, 64)`, rescales to
`(128, 128)`. -/
theorem predict_rescale_uniform_shapes_witness :
    predict_landmarks [(256, 256)] 128 128 [[(64, 64)]] = some [[(128, 128)]] := by
  have h := predict_rescale_uniform_shapes [(256, 256)] 256 256 128 128
    [[(64, 64)]] (by decide) (by decide)
  exact h.trans (by with_unfolding_all decide)

/-! ### C8: `check_image_shape` and `import_data`

`CNN.py` lines 445-481 and 350-407. -/

/-- A row of the file-info table: the resolvable full path and the image
stored there. -/
structure FileEntry where
  path : String
  img : Img

/-- `check_image_shape(df_files)` (`CNN.py` lines 445-481): take the first
image's shape; if any referenced image's shape differs, return `None`,
otherwise return the shape.  An empty table raises at `iloc[0]`, modelled as
`none`. -/
def check_image_shape (df_files : List FileEntry) : Option (ℕ × ℕ) :=
  match df_files with
  | [] => none
  | f :: _ =>
    if df_files.all
        (fun g => decide ((g.img.height, g.img.width) = (f.img.height, f.img.width)))
    then some (f.img.height, f.img.width)
    else none

/-- `import_data(folder, df_landmarks, df_files, df_model)` (`CNN.py` lines
350-407): check shape uniformity; on failure return `None`; otherwise load
one image per unique full path, collect each landmark's `(x, y)` in
vocabulary order into a flat row, and reshape the image stack to
`(n_samples, height, width, 1)` where `n_samples` is the number of unique
full paths of the landmark table (`numpy.reshape` raises when that count
differs from the number of loaded images, modelled as `none`).  `lmkLookup`
stands for the `ast.literal_eval` of the landmark cell at a full path and
landmark name. -/
def import_data (df_files : List FileEntry) (df_landmarks_paths : List String)
    (lmkLookup : String → String → ℤ × ℤ) (model_names : List String) :
    Option (List Img × List (List ℤ)) :=
  match check_image_shape df_files with
  | none => none
  | some _ =>
    let entries := uniqueBy (fun e => e.path) df_files
    let X := entries.map (fun e => e.img)
    let y := entries.map (fun e =>
      (unique model_names).flatMap
        (fun lmk => [(lmkLookup e.path lmk).1, (lmkLookup e.path lmk).2]))
    if X.length = (unique df_landmarks_paths).length then some (X, y) else none

theorem length_flatMap_pair {α β : Type} (l : List α) (f g : α → β) :
    (l.flatMap (fun a => [f a, g a])).length = 2 * l.length := by
  induction l with
  | nil => rfl
  | cons x xs ih =>
    show (([f x, g x] : List β) ++ xs.flatMap (fun a => [f a, g a])).length = _
    rw [List.length_append, ih]
    simp
    omega

/-- C8: when the file table references images of non-identical shapes, the
loader returns the non-uniform-shape failure signal (`None`) rather than
crashing or producing a mis-shaped array; when all images share the first
image's shape, the load proceeds and builds an image array of `n_samples`
images of that common height and width (single channel) and a coordinate
array of `n_samples` rows of length `2 × n_landmarks`. -/
theorem import_data_shape_check :
    ∀ (df_files : List FileEntry) (df_landmarks_paths : List String)
      (lmkLookup : String → String → ℤ × ℤ) (model_names : List String),
      (∀ f₀ fi, df_files.head? = some f₀ → fi ∈ df_files →
        (fi.img.height, fi.img.width) ≠ (f₀.img.height, f₀.img.width) →
        import_data df_files df_landmarks_paths lmkLookup model_names = none)
      ∧ (∀ h w, df_files ≠ [] →
          (∀ fi ∈ df_files, (fi.img.height, fi.img.width) = (h, w)) →
          (uniqueBy (fun e => e.path) df_files).length
              = (unique df_landmarks_paths).length →
          (import_data df_files df_landmarks_paths lmkLookup model_names).isSome
            = true)
      ∧ (∀ h w X y,
          (∀ fi ∈ df_files, (fi.img.height, fi.img.width) = (h, w)) →
          import_data df_files df_landmarks_paths lmkLookup model_names
            = some (X, y) →
          X.length = (uniqueBy (fun e => e.path) df_files).length
          ∧ (∀ im ∈ X, (im.height, im.width) = (h, w))
          ∧ y.length = X.length
          ∧ ∀ row ∈ y, row.length = 2 * (unique model_names).length) := by
  intro df_files df_landmarks_paths lmkLookup model_names
  refine ⟨?_, ?_, ?_⟩
  · intro f₀ fi hhead hmem hne
    cases df_files with
    | nil => cases hhead
    | cons f rest =>
      have hf : f = f₀ := by injection hhead
      subst hf
      have hall : ¬ ((f :: rest).all
          (fun g => decide ((g.img.height, g.img.width)
            = (f.img.height, f.img.width))) = true) := by
        intro hall
        exact hne (by simpa using List.all_eq_true.1 hall fi hmem)
      rw [import_data, check_image_shape]
      rw [if_neg hall]
  · intro h w hne hshapes hcount
    cases df_files with
    | nil => exact absurd rfl hne
    | cons f rest =>
      have hall : ((f :: rest).all
          (fun g => decide ((g.img.height, g.img.width)
            = (f.img.height, f.img.width))) = true) := by
        refine List.all_eq_true.2 (fun g hg => ?_)
        have h1 := hshapes g hg
        have h2 := hshapes f (List.mem_cons_self _ _)
        simp [h1, h2]
      rw [import_data, check_image_shape, if_pos hall]
      have hlen : ((uniqueBy (fun e => e.path) (f :: rest)).map
          (fun e => e.img)).length = (unique df_landmarks_paths).length := by
        rw [List.length_map]
        exact hcount
      rw [if_pos hlen]
      rfl
  · intro h w X y hshapes himp
    rw [import_data] at himp
    cases hchk : check_image_shape df_files with
    | none => rw [hchk] at himp; cases himp
    | some s =>
      rw [hchk] at himp
      by_cases hlen : ((uniqueBy (fun e => e.path) df_files).map
          (fun e => e.img)).length = (unique df_landmarks_paths).length
      · rw [if_pos hlen] at himp
        have hX : X = (uniqueBy (fun e => e.path) df_files).map (fun e => e.img) := by
          injection himp with h1
          exact (congrArg Prod.fst h1).symm
        have hy : y = (uniqueBy (fun e => e.path) df_files).map (fun e =>
            (unique model_names).flatMap
              (fun lmk => [(lmkLookup e.path lmk).1, (lmkLookup e.path lmk).2])) := by
          injection himp with h1
          exact (congrArg Prod.snd h1).symm
        subst hX
        subst hy
        refine ⟨List.length_map _ _, ?_, ?_, ?_⟩
        · intro im him
          obtain ⟨e, he, rfl⟩ := List.mem_map.1 him
          exact hshapes e (mem_of_mem_uniqueBy _ df_files e he)
        · rw [List.length_map, List.length_map]
        · intro row hrow
          obtain ⟨e, _, rfl⟩ := List.mem_map.1 hrow
          exact length_flatMap_pair _ _ _
      · rw [if_neg hlen] at himp
        cases himp

/-- Witness for C8: a two-file table with a 2×2 and a 1×2 image fails with
the `None` signal; the same table with both images 2×2 loads, and the built
arrays have two images, two coordinate rows, and rows of length
`2 × n_landmarks = 2`. -/
theorem import_data_shape_check_witness :
    import_data
        [⟨"a", ⟨2, 2, fun _ _ => 1⟩⟩, ⟨"b", ⟨1, 2, fun _ _ => 1⟩⟩]
        ["a", "b"] (fun _ _ => (1, 2)) ["L1"] = none
    ∧ (import_data
        [⟨"a", ⟨2, 2, fun _ _ => 1⟩⟩, ⟨"b", ⟨2, 2, fun _ _ => 1⟩⟩]
        ["a", "b"] (fun _ _ => (1, 2)) ["L1"]).isSome = true
    ∧ ([[(1 : ℤ), 2], [1, 2]] : List (List ℤ)).length
        = ([⟨2, 2, fun _ _ => 1⟩, ⟨2, 2, fun _ _ => 1⟩] : List Img).length
    ∧ ([(1 : ℤ), 2] : List ℤ).length = 2 * (unique ["L1"]).length := by
  have hshapes : ∀ fi ∈ ([⟨"a", ⟨2, 2, fun _ _ => 1⟩⟩,
      ⟨"b", ⟨2, 2, fun _ _ => 1⟩⟩] : List FileEntry),
      (fi.img.height, fi.img.width) = (2, 2) := by
    intro fi hfi
    rcases List.mem_cons.1 hfi with rfl | hfi2
    · rfl
    · rcases List.mem_cons.1 hfi2 with rfl | hfi3
      · rfl
      · cases hfi3
  have hc := (import_data_shape_check
      [⟨"a", ⟨2, 2, fun _ _ => 1⟩⟩, ⟨"b", ⟨2, 2, fun _ _ => 1⟩⟩]
      ["a", "b"] (fun _ _ => (1, 2)) ["L1"]).2.2 2 2
      [⟨2, 2, fun _ _ => 1⟩, ⟨2, 2, fun _ _ => 1⟩]
      [[(1 : ℤ), 2], [1, 2]] hshapes (by with_unfolding_all rfl)
  refine ⟨?_, ?_, hc.2.2.1, hc.2.2.2 [(1 : ℤ), 2] (List.mem_cons_self _ _)⟩
  · exact (import_data_shape_check _ _ _ _).1
      ⟨"a", ⟨2, 2, fun _ _ => 1⟩⟩ ⟨"b", ⟨1, 2, fun _ _ => 1⟩⟩ rfl
      (List.mem_cons_of_mem _ (List.mem_cons_self _ _)) (by decide)
  · exact (import_data_shape_check _ _ _ _).2.1 2 2 (by simp) hshapes
      (by with_unfolding_all decide)
